import Mathlib

/-!
Verification of the deployment pipeline in `pkg/provider/handlers/deploy.go`
(faasd). The Go functions are shallowly embedded: Go `map[string]string`
values become association lists with unique keys, Go's `(value, error)`
returns become pairs with `Option` components (a `nil` map / `nil` error is
`none`), the filesystem (`os.Stat`) becomes a boolean oracle, and the
containerd / CNI collaborators become an `Oracle` of success flags while
the pipeline records the collaborator calls it issues as an event trace.
-/

namespace Faasd

/-! ### Go `path` package: `Clean` and `Join`, as used via `path.Join`. -/

/-- One step of Go `path.Clean`'s segment processing: `".."` pops the last
kept segment unless there is none (kept as a literal `".."` when the path is
not rooted), any other segment is kept. Empty and `"."` segments were
filtered out before this runs. -/
def cleanStep (rooted : Bool) (acc : List String) (seg : String) : List String :=
  if seg = ".." then
    if acc ≠ [] ∧ acc.getLast? ≠ some ".." then acc.dropLast
    else if rooted then acc
    else acc ++ [".."]
  else acc ++ [seg]

/-- Split a character list on `/`, accumulating the current segment in
reverse (a structural rendering of splitting the path on separators). -/
def splitSlash : List Char → List Char → List String
  | [], cur => [String.mk cur.reverse]
  | c :: cs, cur =>
    if c = '/' then String.mk cur.reverse :: splitSlash cs []
    else splitSlash cs (c :: cur)

/-- Go `path.Clean`. -/
def goClean (p : String) : String :=
  if p = "" then "."
  else
    let rooted : Bool := p.data.head? = some '/'
    let segs := (splitSlash p.data []).filter (fun s => s ≠ "" ∧ s ≠ ".")
    let out := segs.foldl (cleanStep rooted) []
    if rooted then "/" ++ String.intercalate "/" out
    else if out = [] then "."
    else String.intercalate "/" out

/-- Go `path.Join` restricted to two elements, as every call in `deploy.go`
uses it: empty elements are skipped, the rest joined with `/` and cleaned. -/
def goJoin (a b : String) : String :=
  if a = "" then (if b = "" then "" else goClean b)
  else goClean (a ++ "/" ++ b)

/-! ### Data model: `types.FunctionDeployment` and OCI mounts. -/

/-- The fields of `types.FunctionDeployment` that `deploy.go` reads.
`labels` and `annotations` are `*map[string]string` in Go, hence `Option`;
a map is an association list whose keys are unique. -/
structure FunctionDeployment where
  service : String
  image : String
  envProcess : String
  envVars : List (String × String)
  secrets : List String
  labels : Option (List (String × String))
  annotations : Option (List (String × String))
deriving Repr, DecidableEq

/-- `specs.Mount` as populated by `deploy.go`. -/
structure Mount where
  destination : String
  type : String
  source : String
  options : List String
deriving Repr, DecidableEq

/-! ### `buildLabels` (deploy.go:126-149). -/

/-- The constant `annotationLabelPrefix` (deploy.go:27). -/
def annotationLabelPrefix : String := "com.openfaas.annotations."

/-- Go map assignment `m[k] = v`: overwrite the entry when the key is
present, append it otherwise. -/
def mapInsert (m : List (String × String)) (k v : String) : List (String × String) :=
  if m.any (fun p => p.1 = k) then m.map (fun p => if p.1 = k then (k, v) else p)
  else m ++ [(k, v)]

/-- Go map lookup `m[k]` (the `v, ok` form's value, `none` when absent). -/
def mapLookup (m : List (String × String)) (k : String) : Option String :=
  (m.find? (fun p => decide (p.1 = k))).map Prod.snd

/-- The annotation loop of `buildLabels` (deploy.go:136-145): prefix every
annotation key, fail on a key already present, otherwise insert. The pair
mirrors the Go `(map[string]string, error)` return: on failure the map is
`nil` (`none`), never the half-built one. -/
def addAnnotations (m : List (String × String)) :
    List (String × String) → Option (List (String × String)) × Option String
  | [] => (some m, none)
  | kv :: rest =>
    let key := annotationLabelPrefix ++ kv.1
    if (mapLookup m key).isNone then addAnnotations (mapInsert m key kv.2) rest
    else (none, some ("Keys " ++ kv.1 ++ " can not be used as a labels as is clashes with annotations"))

/-- `buildLabels` (deploy.go:126-149): start from an empty map, copy the
explicit labels, then merge the prefixed annotations. -/
def buildLabels (request : FunctionDeployment) :
    Option (List (String × String)) × Option String :=
  let base : List (String × String) :=
    match request.labels with
    | none => []
    | some ls => ls.foldl (fun m kv => mapInsert m kv.1 kv.2) []
  match request.annotations with
  | none => (some base, none)
  | some annos => addAnnotations base annos

/-! ### `prepareEnv` (deploy.go:188-208). -/

/-- The loop body of `prepareEnv` over one `envVars` entry: state is
`(envs, fprocessFound, fprocess)`. Note the source sets `fprocess = v`
for the reserved key, without the `"fprocess="` prefix. -/
def prepareEnvStep (st : List String × Bool × String) (kv : String × String) :
    List String × Bool × String :=
  if kv.1 = "fprocess" then (st.1, true, kv.2)
  else (st.1 ++ [kv.1 ++ "=" ++ kv.2], st.2.1, st.2.2)

/-- `prepareEnv` (deploy.go:188-208). -/
def prepareEnv (envProcess : String) (reqEnvVars : List (String × String)) : List String :=
  let st0 : List String × Bool × String :=
    ([], envProcess.length > 0, "fprocess=" ++ envProcess)
  let st := reqEnvVars.foldl prepareEnvStep st0
  if st.2.1 then st.1 ++ [st.2.2] else st.1

/-! ### `getMounts` (deploy.go:210-227) and the secret-mount loop
(deploy.go:92-99). -/

/-- `getMounts`: the two fixed read-only bind mounts, sourced from the
working directory (`os.Getwd` is passed in as `wd`). -/
def getMounts (wd : String) : List Mount :=
  [{ destination := "/etc/resolv.conf", type := "bind",
     source := goJoin wd "resolv.conf", options := ["rbind", "ro"] },
   { destination := "/etc/hosts", type := "bind",
     source := goJoin wd "hosts", options := ["rbind", "ro"] }]

/-- The per-secret mount appended by the loop in `deploy` (deploy.go:92-99). -/
def secretMount (secretMountPath secret : String) : Mount :=
  { destination := goJoin "/var/openfaas/secrets" secret, type := "bind",
    source := goJoin secretMountPath secret, options := ["rbind", "ro"] }

/-- The secret-mount loop of `deploy` (deploy.go:92-99): append one
read-only bind mount per secret, in order. -/
def appendSecretMounts (mounts : List Mount) (secretMountPath : String)
    (secrets : List String) : List Mount :=
  secrets.foldl (fun ms s => ms ++ [secretMount secretMountPath s]) mounts

/-! ### `validateSecrets` (deploy.go:229-236). -/

/-- `validateSecrets`, with `os.Stat` abstracted as the oracle `fs` (true
iff the path exists). Besides the Go error return, the second component
records which paths were stat-checked, in order, so that "no further
secrets are checked" is expressible. -/
def validateSecrets (fs : String → Bool) (secretMountPath : String) :
    List String → Option String × List String
  | [] => (none, [])
  | s :: rest =>
    if fs (goJoin secretMountPath s) then
      let r := validateSecrets fs secretMountPath rest
      (r.1, s :: r.2)
    else (some ("unable to find secret: " ++ s), [s])

/-! ### The effectful pipeline: `createTask`, `deploy`, `MakeDeployHandler`.

The containerd / CNI collaborators are abstracted as an `Oracle` of success
flags; the pipeline records each collaborator call it issues as an `Event`,
in issue order, and stops at the source's early returns. -/

/-- A collaborator call issued by the pipeline (or an `http.Error` write by
the handler). `containerCreate` records the label map passed to
`containerd.WithContainerLabels` (`none` is Go's `nil` map). -/
inductive Event where
  | httpError (msg : String)
  | pullImage (ref : String)
  | containerCreate (name : String) (labels : Option (List (String × String)))
  | taskCreate
  | networkAttach
  | resolveAddress
  | waitRegister
  | taskStart
deriving Repr, DecidableEq

/-- Outcomes of the external collaborator calls: `parseRef` is the result of
`reference.ParseNormalizedNamed` + `TagNameOnly` (`none` = parse error), the
flags tell whether each later call succeeds. Error strings produced inside
collaborators are abstracted to fixed texts. -/
structure Oracle where
  parseRef : Option String
  snapshotter : String
  prepareImageOk : Bool
  newContainerOk : Bool
  newTaskOk : Bool
  createNetworkOk : Bool
  getIPOk : Bool
  waitOk : Bool
  startOk : Bool
deriving Repr

/-- `createTask` (deploy.go:151-186): create the task, attach the CNI
network, resolve the address, register `task.Wait`, then `task.Start`;
each failure returns immediately. The trace lists the calls issued. -/
def createTask (o : Oracle) (name : String) : Option String × List Event :=
  if o.newTaskOk = false then
    (some ("unable to start task: " ++ name), [Event.taskCreate])
  else if o.createNetworkOk = false then
    (some "failed to create CNI network", [Event.taskCreate, Event.networkAttach])
  else if o.getIPOk = false then
    (some "failed to get IP",
     [Event.taskCreate, Event.networkAttach, Event.resolveAddress])
  else if o.waitOk = false then
    (some ("Unable to wait for task to start: " ++ name),
     [Event.taskCreate, Event.networkAttach, Event.resolveAddress, Event.waitRegister])
  else if o.startOk = false then
    (some ("Unable to start task: " ++ name),
     [Event.taskCreate, Event.networkAttach, Event.resolveAddress,
      Event.waitRegister, Event.taskStart])
  else
    (none,
     [Event.taskCreate, Event.networkAttach, Event.resolveAddress,
      Event.waitRegister, Event.taskStart])

/-- `deploy` (deploy.go:69-124). Faithful to the source, the error returned
by `buildLabels` at deploy.go:103 is bound and never checked: the pipeline
proceeds to `client.NewContainer` with whatever map (possibly `nil`) came
back. -/
def deploy (o : Oracle) (req : FunctionDeployment) (secretMountPath wd : String) :
    Option String × List Event :=
  match o.parseRef with
  | none => (some "invalid image reference", [])
  | some imgRef =>
    if o.prepareImageOk = false then
      (some ("unable to pull image " ++ imgRef), [Event.pullImage imgRef])
    else
      let _envs := prepareEnv req.envProcess req.envVars
      let _mounts := appendSecretMounts (getMounts wd) secretMountPath req.secrets
      let name := req.service
      let r := buildLabels req
      let labels := r.1
      if o.newContainerOk = false then
        (some ("unable to create container: " ++ name),
         [Event.pullImage imgRef, Event.containerCreate name labels])
      else
        let t := createTask o name
        (t.1, Event.pullImage imgRef :: Event.containerCreate name labels :: t.2)

/-- The handler returned by `MakeDeployHandler` (deploy.go:29-67), from the
body onward: `none` = no body, `some none` = JSON that fails to unmarshal,
`some (some req)` = a decoded request. Faithful to the source, the branch at
deploy.go:52-55 writes the validation error with `http.Error` but does not
return, so the pipeline continues into `deploy`. -/
def deployHandler (fs : String → Bool) (o : Oracle) (secretMountPath wd : String)
    (body : Option (Option FunctionDeployment)) : List Event :=
  match body with
  | none => [Event.httpError "expected a body"]
  | some none => [Event.httpError "error parsing input"]
  | some (some req) =>
    let v := validateSecrets fs secretMountPath req.secrets
    let pre : List Event :=
      match v.1 with
      | some e => [Event.httpError e]
      | none => []
    let d := deploy o req secretMountPath wd
    match d.1 with
    | some e => pre ++ d.2 ++ [Event.httpError e]
    | none => pre ++ d.2

/-! ### Concrete instances used by the counterexample and witness theorems. -/

/-- An oracle on which every collaborator call succeeds. -/
def okOracle : Oracle :=
  { parseRef := some "docker.io/library/alpine:latest", snapshotter := "",
    prepareImageOk := true, newContainerOk := true, newTaskOk := true,
    createNetworkOk := true, getIPOk := true, waitOk := true, startOk := true }

/-- A request declaring one secret, `db-password`. -/
def reqSecret : FunctionDeployment :=
  { service := "fn", image := "alpine", envProcess := "", envVars := [],
    secrets := ["db-password"], labels := none, annotations := none }

/-- A request whose explicit label collides with its prefixed annotation. -/
def reqClash : FunctionDeployment :=
  { service := "fn", image := "alpine", envProcess := "", envVars := [],
    secrets := [], labels := some [("com.openfaas.annotations.a", "x")],
    annotations := some [("a", "y")] }

/-- A request with given labels and annotations and nothing else. -/
def mkLabelReq (L A : Option (List (String × String))) : FunctionDeployment :=
  { service := "fn", image := "alpine", envProcess := "", envVars := [],
    secrets := [], labels := L, annotations := A }

/-- A filesystem on which no path exists. -/
def emptyFs : String → Bool := fun _ => false

/-- A filesystem for the `validateSecrets` witness: only `/run/a` and
`/run/c` exist. -/
def abcFs : String → Bool := fun p => p == "/run/a" || p == "/run/c"

/-! ### Helper lemmas on the map embedding. -/

theorem append_left_cancel {p a b : String} (h : p ++ a = p ++ b) : a = b := by
  have h2 := congrArg String.data h
  rw [String.data_append, String.data_append] at h2
  exact congrArg String.mk (List.append_cancel_left h2)

theorem mapInsert_of_not_mem {m : List (String × String)} {k : String} (v : String)
    (h : k ∉ m.map Prod.fst) : mapInsert m k v = m ++ [(k, v)] := by
  have hno : ¬ (m.any (fun p => decide (p.1 = k)) = true) := by
    simp only [List.any_eq_true, decide_eq_true_eq, not_exists]
    intro p hc
    rcases hc with ⟨hp, hpk⟩
    exact h (hpk ▸ List.mem_map_of_mem Prod.fst hp)
  simp [mapInsert, hno]

theorem mapLookup_eq_none {m : List (String × String)} {k : String}
    (h : k ∉ m.map Prod.fst) : mapLookup m k = none := by
  have hf : m.find? (fun p => decide (p.1 = k)) = none := by
    rw [List.find?_eq_none]
    intro p hp
    simp only [decide_eq_true_eq]
    intro hpk
    exact h (hpk ▸ List.mem_map_of_mem Prod.fst hp)
  simp [mapLookup, hf]

theorem mapLookup_isSome_of_mem {m : List (String × String)} {k : String}
    (h : k ∈ m.map Prod.fst) : (mapLookup m k).isSome = true := by
  rcases List.mem_map.mp h with ⟨p, hp, hpk⟩
  have hf : (m.find? (fun p => decide (p.1 = k))).isSome = true := by
    rw [List.find?_isSome]
    exact ⟨p, hp, by simp [hpk]⟩
  simp only [mapLookup, Option.isSome_map']
  exact hf

theorem find?_of_mem_nodup :
    ∀ {m : List (String × String)}, (m.map Prod.fst).Nodup →
      ∀ {kv : String × String}, kv ∈ m →
        m.find? (fun p => decide (p.1 = kv.1)) = some kv := by
  intro m
  induction m with
  | nil => intro _ kv hkv; exact absurd hkv (List.not_mem_nil kv)
  | cons hd tl ih =>
    intro hnd kv hkv
    rw [List.map_cons, List.nodup_cons] at hnd
    rcases List.mem_cons.mp hkv with h | h
    · subst h
      simp [List.find?_cons]
    · have hne : hd.1 ≠ kv.1 := by
        intro he
        exact hnd.1 (he ▸ List.mem_map_of_mem Prod.fst h)
      rw [List.find?_cons]
      have hdec : (decide (hd.1 = kv.1)) = false := by
        simp [hne]
      rw [hdec]
      exact ih hnd.2 h

theorem mapLookup_of_mem_nodup {m : List (String × String)}
    (hnd : (m.map Prod.fst).Nodup) {kv : String × String} (hkv : kv ∈ m) :
    mapLookup m kv.1 = some kv.2 := by
  simp [mapLookup, find?_of_mem_nodup hnd hkv]

/-- The explicit-label copy loop of `buildLabels` (deploy.go:130-134), when
the inserted keys are fresh and mutually distinct, appends the entries. -/
theorem foldl_mapInsert_fresh :
    ∀ (L m : List (String × String)), (L.map Prod.fst).Nodup →
      (∀ k ∈ L.map Prod.fst, k ∉ m.map Prod.fst) →
      L.foldl (fun m kv => mapInsert m kv.1 kv.2) m = m ++ L := by
  intro L
  induction L with
  | nil => intro m _ _; simp
  | cons kv rest ih =>
    intro m hnd hfresh
    rw [List.map_cons, List.nodup_cons] at hnd
    have hk : kv.1 ∉ m.map Prod.fst :=
      hfresh kv.1 (by simp)
    have step : mapInsert m kv.1 kv.2 = m ++ [kv] := by
      rw [mapInsert_of_not_mem kv.2 hk]
    rw [List.foldl_cons, step, ih (m ++ [kv]) hnd.2]
    · simp
    · intro k hkrest
      rw [List.map_append, List.mem_append]
      rintro (hin | hin)
      · exact hfresh k (by simp [hkrest]) hin
      · simp only [List.map_cons, List.map_nil, List.mem_cons] at hin
        rcases hin with h | h
        · exact hnd.1 (h ▸ hkrest)
        · exact absurd h (List.not_mem_nil k)

/-- The annotation loop, when every prefixed key is fresh for the map being
built and the prefixed keys are mutually distinct, appends the prefixed
entries and reports no error. -/
theorem addAnnotations_fresh :
    ∀ (A m : List (String × String)),
      (∀ kv ∈ A, (annotationLabelPrefix ++ kv.1) ∉ m.map Prod.fst) →
      ((A.map fun kv => annotationLabelPrefix ++ kv.1).Nodup) →
      addAnnotations m A =
        (some (m ++ A.map fun kv => (annotationLabelPrefix ++ kv.1, kv.2)), none) := by
  intro A
  induction A with
  | nil => intro m _ _; simp [addAnnotations]
  | cons kv rest ih =>
    intro m hfresh hnd
    rw [List.map_cons, List.nodup_cons] at hnd
    have hk : (annotationLabelPrefix ++ kv.1) ∉ m.map Prod.fst :=
      hfresh kv (by simp)
    have hlook : (mapLookup m (annotationLabelPrefix ++ kv.1)).isNone = true := by
      rw [mapLookup_eq_none hk]; rfl
    rw [addAnnotations]
    simp only [hlook, if_true]
    rw [mapInsert_of_not_mem kv.2 hk,
        ih (m ++ [(annotationLabelPrefix ++ kv.1, kv.2)])]
    · simp
    · intro kv2 hkv2
      rw [List.map_append, List.mem_append]
      rintro (hin | hin)
      · exact hfresh kv2 (by simp [hkv2]) hin
      · simp only [List.map_cons, List.map_nil, List.mem_cons] at hin
        rcases hin with h | h
        · exact hnd.1 (h ▸ List.mem_map_of_mem (fun kv => annotationLabelPrefix ++ kv.1) hkv2)
        · exact absurd h (List.not_mem_nil _)
    · exact hnd.2

/-- The annotation loop, when some annotation's prefixed key is already
present in the map being built, returns a `nil` map and an error. -/
theorem addAnnotations_clash :
    ∀ (A m : List (String × String)),
      (∃ kv ∈ A, (annotationLabelPrefix ++ kv.1) ∈ m.map Prod.fst) →
      (addAnnotations m A).1 = none ∧ ((addAnnotations m A).2).isSome = true := by
  intro A
  induction A with
  | nil =>
    intro m h
    rcases h with ⟨kv, hkv, _⟩
    exact absurd hkv (List.not_mem_nil kv)
  | cons kv rest ih =>
    intro m h
    by_cases hk : (annotationLabelPrefix ++ kv.1) ∈ m.map Prod.fst
    · have hlook : (mapLookup m (annotationLabelPrefix ++ kv.1)).isNone = false := by
        have := mapLookup_isSome_of_mem hk
        cases hv : mapLookup m (annotationLabelPrefix ++ kv.1) with
        | none => rw [hv] at this; exact absurd this (by simp)
        | some v => rfl
      rw [addAnnotations]
      simp [hlook]
    · rcases h with ⟨kv2, hkv2, hin⟩
      have hkv2r : kv2 ∈ rest := by
        rcases List.mem_cons.mp hkv2 with h | h
        · exact absurd (h ▸ hin) hk
        · exact h
      have hlook : (mapLookup m (annotationLabelPrefix ++ kv.1)).isNone = true := by
        rw [mapLookup_eq_none hk]; rfl
      rw [addAnnotations]
      simp only [hlook, if_true]
      apply ih
      refine ⟨kv2, hkv2r, ?_⟩
      rw [mapInsert_of_not_mem kv.2 hk, List.map_append, List.mem_append]
      exact Or.inl hin

/-- Appending one element per item of a list, by a left fold, is appending
the mapped list. -/
theorem foldl_append_singleton {α β : Type} (f : α → β) :
    ∀ (S : List α) (init : List β),
      S.foldl (fun ms s => ms ++ [f s]) init = init ++ S.map f := by
  intro S
  induction S with
  | nil => intro init; simp
  | cons a rest ih => intro init; simp [ih]

/-! ### The claims. -/

/-- C1: refuted on the code. For the request declaring secret `db-password`
on a filesystem with no file under the mount path, secret validation fails
(first conjunct), yet the handler does not return: deploy.go:52-55 writes
the `http.Error` without a `return`, the pipeline continues, and — with
every collaborator call succeeding — a container-creation call is issued
(second conjunct). The claim says the handler returns immediately after
the validation error and no container creation occurs. -/
theorem C1_handler_continues_after_missing_secret :
    (validateSecrets emptyFs "/run/secrets" ["db-password"]).1 =
      some "unable to find secret: db-password" ∧
    Event.containerCreate "fn" (some []) ∈
      deployHandler emptyFs okOracle "/run/secrets" "/wd" (some (some reqSecret)) := by
  decide

/-- C2: refuted on the code. For the request whose explicit label collides
with its prefixed annotation, `buildLabels` fails and returns a `nil` map
(first two conjuncts), yet `deploy` never checks the error bound at
deploy.go:103: with every collaborator call succeeding, the
container-creation call is issued, carrying the `nil` label map (third
conjunct). The claim says the pipeline short-circuits with the error
before any container-creation call. -/
theorem C2_deploy_creates_container_after_label_merge_failure :
    (buildLabels reqClash).1 = none ∧
    ((buildLabels reqClash).2).isSome = true ∧
    Event.containerCreate "fn" none ∈ (deploy okOracle reqClash "/run/secrets" "/wd").2 := by
  decide

/-- C3: refuted on the code. `prepareEnv` sets `fprocess = v` (deploy.go:199)
instead of `fprocess = "fprocess=" + v`, so for the reserved key the raw
value is appended without the `KEY=` part: the produced sequence is
`["node index.js"]`, not a sequence containing `fprocess=node index.js`.
The claimed entry is absent. -/
theorem C3_prepareEnv_drops_reserved_key_prefix :
    prepareEnv "python3" [("fprocess", "node index.js")] = ["node index.js"] ∧
    "fprocess=node index.js" ∉ prepareEnv "python3" [("fprocess", "node index.js")] := by
  decide

/-- C4: for label and annotation mappings (association lists with unique
keys) such that no prefixed annotation key occurs among the explicit label
keys, `buildLabels` succeeds with a map of size `|L| + |A|` that answers
every explicit-label lookup and every prefixed-annotation lookup with the
original value. -/
theorem C4_buildLabels_disjoint_merge (L A : List (String × String))
    (hL : (L.map Prod.fst).Nodup) (hA : (A.map Prod.fst).Nodup)
    (hdisj : ∀ kv ∈ A, (annotationLabelPrefix ++ kv.1) ∉ L.map Prod.fst) :
    ∃ m, buildLabels (mkLabelReq (some L) (some A)) = (some m, none) ∧
      m.length = L.length + A.length ∧
      (∀ kv ∈ L, mapLookup m kv.1 = some kv.2) ∧
      (∀ kv ∈ A, mapLookup m (annotationLabelPrefix ++ kv.1) = some kv.2) := by
  have hA' : ((A.map fun kv => annotationLabelPrefix ++ kv.1).Nodup) := by
    have he : (A.map fun kv => annotationLabelPrefix ++ kv.1)
        = (A.map Prod.fst).map (fun k => annotationLabelPrefix ++ k) := by
      rw [List.map_map]
      rfl
    rw [he]
    exact hA.map (fun a b h => append_left_cancel h)
  have hbase : L.foldl (fun m kv => mapInsert m kv.1 kv.2)
      ([] : List (String × String)) = L := by
    simpa using foldl_mapInsert_fresh L [] hL (by intro k _ h; exact absurd h (List.not_mem_nil k))
  have hadd := addAnnotations_fresh A L hdisj hA'
  have hndm : ((L ++ A.map fun kv => (annotationLabelPrefix ++ kv.1, kv.2)).map
      Prod.fst).Nodup := by
    rw [List.map_append, List.nodup_append]
    refine ⟨hL, ?_, ?_⟩
    · rw [List.map_map]
      exact hA'
    · intro a ha hb
      rw [List.map_map] at hb
      rcases List.mem_map.mp hb with ⟨kv, hkv, hke⟩
      have hke2 : annotationLabelPrefix ++ kv.1 = a := hke
      exact hdisj kv hkv (hke2 ▸ ha)
  refine ⟨L ++ A.map fun kv => (annotationLabelPrefix ++ kv.1, kv.2), ?_, by simp, ?_, ?_⟩
  · show addAnnotations (L.foldl (fun m kv => mapInsert m kv.1 kv.2) []) A = _
    rw [hbase]
    exact hadd
  · intro kv hkv
    exact mapLookup_of_mem_nodup hndm (List.mem_append_left _ hkv)
  · intro kv hkv
    exact mapLookup_of_mem_nodup hndm
      (List.mem_append_right _
        (List.mem_map_of_mem (fun kv => (annotationLabelPrefix ++ kv.1, kv.2)) hkv))

/-- Witness for C4 at one explicit label and one annotation: two entries,
not four. -/
theorem C4_buildLabels_disjoint_merge_witness :
    ∃ m, buildLabels (mkLabelReq (some [("function_name", "echo")])
        (some [("current-time", "X")])) = (some m, none) ∧
      m.length = [("function_name", "echo")].length + [("current-time", "X")].length ∧
      (∀ kv ∈ [("function_name", "echo")], mapLookup m kv.1 = some kv.2) ∧
      (∀ kv ∈ [("current-time", "X")],
        mapLookup m (annotationLabelPrefix ++ kv.1) = some kv.2) :=
  C4_buildLabels_disjoint_merge [("function_name", "echo")] [("current-time", "X")]
    (by decide) (by decide) (by decide)

/-- C5: when some explicit label key equals the prefix concatenated with
some annotation key, `buildLabels` fails with an error and the returned
map is `nil` (`none`), not the half-built map. -/
theorem C5_buildLabels_collision (L A : List (String × String))
    (hL : (L.map Prod.fst).Nodup)
    (hcol : ∃ kv ∈ A, (annotationLabelPrefix ++ kv.1) ∈ L.map Prod.fst) :
    (buildLabels (mkLabelReq (some L) (some A))).1 = none ∧
    ((buildLabels (mkLabelReq (some L) (some A))).2).isSome = true := by
  have hbase : L.foldl (fun m kv => mapInsert m kv.1 kv.2)
      ([] : List (String × String)) = L := by
    simpa using foldl_mapInsert_fresh L [] hL (by intro k _ h; exact absurd h (List.not_mem_nil k))
  have h := addAnnotations_clash A L hcol
  constructor
  · show (addAnnotations (L.foldl (fun m kv => mapInsert m kv.1 kv.2) []) A).1 = none
    rw [hbase]
    exact h.1
  · show ((addAnnotations (L.foldl (fun m kv => mapInsert m kv.1 kv.2) []) A).2).isSome = true
    rw [hbase]
    exact h.2

/-- Witness for C5 at the colliding label/annotation pair. -/
theorem C5_buildLabels_collision_witness :
    (buildLabels (mkLabelReq (some [("com.openfaas.annotations.a", "x")])
        (some [("a", "y")]))).1 = none ∧
    ((buildLabels (mkLabelReq (some [("com.openfaas.annotations.a", "x")])
        (some [("a", "y")]))).2).isSome = true :=
  C5_buildLabels_collision [("com.openfaas.annotations.a", "x")] [("a", "y")]
    (by decide) (by decide)

/-- C6: for every working directory, mount path and secret sequence, the
mount list built for container creation is the two fixed read-only bind
mounts (resolver configuration, hosts file, sourced from the working
directory) followed by one read-only bind mount per secret, in the
sequence's order, with destination `/var/openfaas/secrets/<name>` and
source `mountPath/<name>`; the construction is a total function (it never
fails). -/
theorem C6_mount_construction (wd mountPath : String) (secrets : List String) :
    appendSecretMounts (getMounts wd) mountPath secrets =
      { destination := "/etc/resolv.conf", type := "bind",
        source := goJoin wd "resolv.conf", options := ["rbind", "ro"] } ::
      { destination := "/etc/hosts", type := "bind",
        source := goJoin wd "hosts", options := ["rbind", "ro"] } ::
      secrets.map (fun s =>
        { destination := goJoin "/var/openfaas/secrets" s, type := "bind",
          source := goJoin mountPath s, options := ["rbind", "ro"] }) := by
  unfold appendSecretMounts
  rw [foldl_append_singleton (secretMount mountPath) secrets (getMounts wd)]
  rfl

/-- C7: in every execution of `createTask` that issues the start call, the
wait subscription was registered (and succeeded) first: the trace is
exactly task-create, network-attach, address-resolve, wait-register,
start, in that order. -/
theorem C7_wait_registered_before_start (o : Oracle) (name : String)
    (h : Event.taskStart ∈ (createTask o name).2) :
    (createTask o name).2 =
      [Event.taskCreate, Event.networkAttach, Event.resolveAddress,
       Event.waitRegister, Event.taskStart] := by
  rcases o with ⟨pr, sn, pi, nc, nt, cn, gi, w, st⟩
  cases nt <;> cases cn <;> cases gi <;> cases w <;> cases st <;>
    simp_all [createTask]

/-- Witness for C7 on the all-succeeding oracle. -/
theorem C7_wait_registered_before_start_witness :
    (createTask okOracle "fn").2 =
      [Event.taskCreate, Event.networkAttach, Event.resolveAddress,
       Event.waitRegister, Event.taskStart] :=
  C7_wait_registered_before_start okOracle "fn" (by decide)

/-- C8: `validateSecrets` checks the names in order; when every file
exists it returns no error having checked them all, and at the first name
whose file is absent it returns an error naming that secret, the checked
paths being exactly the names up to and including it — none later. -/
theorem C8_validateSecrets_first_missing (fs : String → Bool) (mountPath : String) :
    (∀ secrets : List String, (∀ s ∈ secrets, fs (goJoin mountPath s) = true) →
      validateSecrets fs mountPath secrets = (none, secrets)) ∧
    (∀ pre s post, (∀ p ∈ pre, fs (goJoin mountPath p) = true) →
      fs (goJoin mountPath s) = false →
      validateSecrets fs mountPath (pre ++ s :: post) =
        (some ("unable to find secret: " ++ s), pre ++ [s])) := by
  constructor
  · intro secrets h
    induction secrets with
    | nil => rfl
    | cons a rest ih =>
      have ha : fs (goJoin mountPath a) = true := h a (by simp)
      have hr : validateSecrets fs mountPath rest = (none, rest) :=
        ih (fun s hs => h s (by simp [hs]))
      simp [validateSecrets, ha, hr]
  · intro pre s post hpre hs
    induction pre with
    | nil => simp [validateSecrets, hs]
    | cons a rest ih =>
      have ha : fs (goJoin mountPath a) = true := hpre a (by simp)
      have hr := ih (fun p hp => hpre p (by simp [hp]))
      simp [validateSecrets, ha, hr]

/-- Witness for C8: with only `/run/a` and `/run/c` present, checking
`["a", "b", "c"]` stops at `b` with the error naming it. -/
theorem C8_validateSecrets_first_missing_witness :
    validateSecrets abcFs "/run" (["a"] ++ "b" :: ["c"]) =
      (some ("unable to find secret: " ++ "b"), ["a"] ++ ["b"]) :=
  (C8_validateSecrets_first_missing abcFs "/run").2 ["a"] "b" ["c"]
    (by decide) (by decide)

/-- C9: with both the labels and the annotations pointers absent (`none`),
`buildLabels` returns the empty but non-`nil` map (`some []`) and no
error. -/
theorem C9_buildLabels_nil_inputs :
    buildLabels (mkLabelReq none none) = (some [], none) := rfl

/-- C10: on an empty secret sequence (a `nil` Go slice ranges as empty),
`validateSecrets` returns no error and the list of stat-checked paths is
empty, for every filesystem and mount path. -/
theorem C10_validateSecrets_empty (fs : String → Bool) (mountPath : String) :
    validateSecrets fs mountPath [] = (none, []) := rfl

end Faasd
